import Mathlib

/-!
Shallow embedding of the cgDist core (Rust) in Lean 4, together with proofs
about the embedded functions.  Strings are modelled as lists of characters,
machine integers (`u32`, `usize`) as natural numbers with explicit bounds
where overflow matters, and `f64` arithmetic as exact rational arithmetic.
File paths, progress bars and the JSON/LZ4 byte-level encoding are elided:
persistence is modelled at the level of the structured document the code
serializes (`ModernCache`).
-/

namespace CgDist

/-- Rust strings, modelled as lists of characters. -/
abbrev Str := List Char

/-- Lexicographic order on strings by code point, as Rust `str` ordering
(UTF-8 byte order coincides with code-point order). -/
def strLe : Str → Str → Bool
  | [], _ => true
  | _ :: _, [] => false
  | a :: as, b :: bs =>
    if a.toNat < b.toNat then true
    else if b.toNat < a.toNat then false
    else strLe as bs

/-- ASCII whitespace predicate used by `str::trim` (the profile cells and
markers in the claims contain no exotic Unicode whitespace). -/
def isSpaceChar (c : Char) : Bool :=
  c = ' ' || c = '\t' || c = '\n' || c = '\r'

/-- Rust `str::trim`. -/
def trimStr (s : Str) : Str :=
  ((s.dropWhile isSpaceChar).reverse.dropWhile isSpaceChar).reverse

/-- Numeric value of a big-endian decimal digit string. -/
def digitsVal (s : Str) : Nat :=
  s.foldl (fun a c => 10 * a + (c.toNat - 48)) 0

/-- Rust strips at most one leading `+` when parsing unsigned integers. -/
def stripPlus (s : Str) : Str :=
  match s with
  | [] => []
  | c :: rest => if c = '+' then rest else c :: rest

/-- Rust `str::parse::<u32>`: optional leading `+`, one or more decimal
digits, value below `2^32`; anything else is an error (`none`). -/
def parseU32 (s : Str) : Option Nat :=
  let t := stripPlus s
  if t = [] then none
  else if t.all Char.isDigit then
    if digitsVal t < 4294967296 then some (digitsVal t) else none
  else none

/-- Rust `split(':')` on a string: the list of (possibly empty) fragments. -/
def splitOnColon : Str → List Str
  | [] => [[]]
  | c :: rest =>
    match splitOnColon rest with
    | [] => [[]]
    | p :: ps => if c = ':' then [] :: p :: ps else (c :: p) :: ps

/-- Decimal digit character of `d < 10`. -/
def digitChar (d : Nat) : Char := Char.ofNat (48 + d)

/-- Fuel-driven decimal rendering (fuel `> n` suffices). -/
def natToStrAux : Nat → Nat → Str
  | 0, _ => []
  | fk + 1, n =>
    if n < 10 then [digitChar n]
    else natToStrAux fk (n / 10) ++ [digitChar (n % 10)]

/-- Rust `u32::to_string`: decimal rendering of a natural number. -/
def natToStr (n : Nat) : Str := natToStrAux (n + 1) n

/-- IEEE CRC-32 polynomial (reflected), as used by `crc32fast`. -/
def crcPoly : Nat := 0xEDB88320

/-- One bit-step of the reflected CRC-32 computation. -/
def crc32Step (c : Nat) : Nat :=
  if c % 2 = 1 then (c >>> 1) ^^^ crcPoly else c >>> 1

/-- Absorb one byte into a running CRC-32 state. -/
def crc32Byte (c b : Nat) : Nat :=
  crc32Step^[8] (c ^^^ (b % 256))

/-- IEEE CRC-32 of a byte sequence (`crc32fast::Hasher` with `finalize`). -/
def crc32 (data : List Nat) : Nat :=
  (data.foldl crc32Byte 0xFFFFFFFF) ^^^ 0xFFFFFFFF

/-- `u32::MAX`, the reserved missing-fingerprint value. -/
def uMAX : Nat := 4294967295

/-- Exact rational division, written through `Rat.divInt` so that closed
instances evaluate by `decide`; it agrees with `(· / ·)` on `ℚ`
(`qdiv_eq_div` below).  `f64` divisions of the source are modelled by it. -/
def qdiv (x y : ℚ) : ℚ :=
  Rat.divInt (x.num * (y.den : Int)) (y.num * (x.den : Int))

/-- Exact rational multiplication through `mkRat`, evaluation-friendly and
equal to `(· * ·)` on `ℚ` (`qmul_eq_mul` below). -/
def qmul (x y : ℚ) : ℚ := mkRat (x.num * y.num) (x.den * y.den)

/-- Decidable equality for `Except`, used by closed evaluations. -/
instance instDecEqExcept {ε α : Type} [DecidableEq ε] [DecidableEq α] :
    DecidableEq (Except ε α) := fun a b =>
  match a, b with
  | .ok x, .ok y =>
    decidable_of_iff (x = y)
      ⟨fun h => congrArg _ h, fun h => by injection h⟩
  | .error x, .error y =>
    decidable_of_iff (x = y)
      ⟨fun h => congrArg _ h, fun h => by injection h⟩
  | .ok _, .error _ => isFalse (fun h => by injection h)
  | .error _, .ok _ => isFalse (fun h => by injection h)

/-- `AlleleHash` from `hashers/traits.rs`. -/
inductive AlleleHash where
  | crc32v (v : Nat)
  | strv (s : Str)
  | missing
deriving DecidableEq

/-- `AlleleHash::is_missing`. -/
def AlleleHash.isMissingB : AlleleHash → Bool
  | .missing => true
  | _ => false

/-- `AlleleHash::as_crc32`. -/
def AlleleHash.asCrc32 : AlleleHash → Option Nat
  | .crc32v v => some v
  | _ => none

/-- `AlleleHash::from_crc32`: `u32::MAX` is mapped to the missing marker. -/
def fromCrc32 (v : Nat) : AlleleHash :=
  if v = uMAX then .missing else .crc32v v

/-- The string `"NA"`. -/
def strNA : Str := ['N', 'A']

/-- Error text of a failed CRC32 parse. -/
def parseErrMsg : Str :=
  ['b', 'a', 'd', ' ', 'C', 'R', 'C', '3', '2']

/-- `Crc32Hasher::parse_allele` (hashers/crc32.rs:18-30): trim, map the
empty string, `"NA"` and the missing marker to the missing fingerprint,
then parse as `u32` and pass through `from_crc32`. -/
def parseAllele (alleleStr missingChar : Str) : Except Str AlleleHash :=
  let cleaned := trimStr alleleStr
  if cleaned = [] ∨ cleaned = strNA ∨ cleaned = missingChar then .ok .missing
  else
    match parseU32 cleaned with
    | some n => .ok (fromCrc32 n)
    | none => .error parseErrMsg

/-- `DistanceMode` from `core/alignment.rs`. -/
inductive DistanceMode where
  | snpsOnly
  | snpsAndIndelEvents
  | snpsAndIndelBases
  | hamming
deriving DecidableEq

/-- `AlignmentConfig` from `core/alignment.rs`; the derived Rust `PartialEq`
compares all five fields, which is structural equality here. -/
structure AlignmentConfig where
  matchScore : Int
  mismatchPenalty : Int
  gapOpen : Int
  gapExtend : Int
  description : Option Str
deriving DecidableEq

/-- The internal cache entry of `core/distance.rs`. -/
structure CacheEntry where
  snps : Nat
  indelEvents : Nat
  indelBases : Nat
deriving DecidableEq

/-- The internal cache key of `core/distance.rs` (`DistanceCacheKey`). -/
structure DistanceCacheKey where
  locus : Str
  crc1 : Nat
  crc2 : Nat
deriving DecidableEq

/-- Association-list lookup, modelling `HashMap::get`. -/
def lookupA {α β : Type} [DecidableEq α] : List (α × β) → α → Option β
  | [], _ => none
  | (k', v) :: t, k => if k = k' then some v else lookupA t k

/-- Association-list insert with overwrite, modelling `HashMap::insert`. -/
def insertA {α β : Type} [DecidableEq α] (l : List (α × β)) (k : α) (v : β) :
    List (α × β) :=
  (k, v) :: l.filter (fun p => decide (p.1 ≠ k))

/-- The string `"hamming"`. -/
def hammingStr : Str := ['h', 'a', 'm', 'm', 'i', 'n', 'g']

/-- The mutable state of `DistanceEngine` (the alignment-details output
buffer, which is write-only I/O, is elided). -/
structure Engine where
  cache : List (DistanceCacheKey × CacheEntry)
  config : AlignmentConfig
  hasherType : Str
  cacheNote : Option Str
  hasNewEntries : Bool

/-- Mode projection of a cached triple, from `DistanceEngine::get_distance`. -/
def modeProjection (e : CacheEntry) : DistanceMode → Nat
  | .snpsOnly => e.snps
  | .snpsAndIndelEvents => e.snps + e.indelEvents
  | .snpsAndIndelBases => e.snps + e.indelBases
  | .hamming => 1

/-- `DistanceEngine::get_distance` (distance.rs:119-182). -/
def getDistance (eng : Engine) (locus : Str) (crc1 crc2 : Nat)
    (mode : DistanceMode) (noHammingFallback : Bool) : Nat :=
  if crc1 = uMAX ∨ crc2 = uMAX then 0
  else if crc1 = crc2 then 0
  else if eng.hasherType = hammingStr then 1
  else
    let mn := if crc1 ≤ crc2 then crc1 else crc2
    let mx := if crc1 ≤ crc2 then crc2 else crc1
    match lookupA eng.cache ⟨locus, mn, mx⟩ with
    | some entry =>
      let d := modeProjection entry mode
      if d = 0 ∧ crc1 ≠ crc2 ∧ noHammingFallback = false ∧ mode = .snpsOnly
      then 1 else d
    | none =>
      if noHammingFallback then 0
      else if mode = .snpsOnly then 1
      else 0

/-- The get contract exactly as the specification words it (§4.5): the
projection for a cached canonical pair, a fallback of `1` exactly for
`SnpsOnly` with the fallback enabled on a miss or a zero projection. -/
def claimGetDistance (cache : List (DistanceCacheKey × CacheEntry))
    (locus : Str) (crc1 crc2 : Nat) (mode : DistanceMode)
    (noHammingFallback : Bool) : Nat :=
  if crc1 = uMAX ∨ crc2 = uMAX then 0
  else if crc1 = crc2 then 0
  else
    let fallback :=
      if noHammingFallback = false ∧ mode = .snpsOnly then 1 else 0
    let mn := if crc1 ≤ crc2 then crc1 else crc2
    let mx := if crc1 ≤ crc2 then crc2 else crc1
    match lookupA cache ⟨locus, mn, mx⟩ with
    | some entry =>
      let p := modeProjection entry mode
      if p = 0 then fallback else p
    | none => fallback

/-! ### Sample distance and matrix assembly (distance.rs:910-1018) -/

/-- `AllelicProfile` from `data/profile.rs`. -/
structure AllelicProfile where
  sampleId : Str
  lociHashes : List (Str × AlleleHash)
deriving DecidableEq

/-- Fingerprint extraction in `calculate_sample_distance`:
`loci_hashes.get(locus).and_then(as_crc32).unwrap_or(u32::MAX)`. -/
def profCrc (p : AllelicProfile) (locus : Str) : Nat :=
  ((lookupA p.lociHashes locus).bind AlleleHash.asCrc32).getD uMAX

/-- `calculate_sample_distance` (distance.rs:910-942). -/
def calculateSampleDistance (s1 s2 : AllelicProfile) (lociNames : List Str)
    (eng : Engine) (mode : DistanceMode) (minLoci : Nat) (nf : Bool) :
    Option Nat :=
  let acc := lociNames.foldl (fun (acc : Nat × Nat) locus =>
    let c1 := profCrc s1 locus
    let c2 := profCrc s2 locus
    (acc.1 + getDistance eng locus c1 c2 mode nf,
     acc.2 + (if c1 ≠ uMAX ∧ c2 ≠ uMAX then 1 else 0))) (0, 0)
  if acc.2 ≥ minLoci then some acc.1 else none

/-- Closed form of the shared-locus counter of `calculate_sample_distance`. -/
def sharedLociCount (s1 s2 : AllelicProfile) (lociNames : List Str) : Nat :=
  lociNames.countP
    (fun locus => decide (profCrc s1 locus ≠ uMAX ∧ profCrc s2 locus ≠ uMAX))

/-- Closed form of the distance accumulator of `calculate_sample_distance`. -/
def sumLociDistance (s1 s2 : AllelicProfile) (lociNames : List Str)
    (eng : Engine) (mode : DistanceMode) (nf : Bool) : Nat :=
  (lociNames.map (fun locus =>
    getDistance eng locus (profCrc s1 locus) (profCrc s2 locus) mode nf)).sum

/-- Placeholder profile for out-of-range indexing. -/
def defaultProfile : AllelicProfile := ⟨[], []⟩

/-- Closed form of one cell of the imperative matrix fill of
`calculate_distance_matrix` (distance.rs:945-1018): diagonal `Some 0`,
upper triangle computed, lower triangle mirrored. -/
def distanceMatrixEntry (samples : List AllelicProfile) (lociNames : List Str)
    (eng : Engine) (mode : DistanceMode) (minLoci : Nat) (nf : Bool)
    (i j : Nat) : Option Nat :=
  if i = j then some 0
  else if i < j then
    calculateSampleDistance (samples.getD i defaultProfile)
      (samples.getD j defaultProfile) lociNames eng mode minLoci nf
  else
    calculateSampleDistance (samples.getD j defaultProfile)
      (samples.getD i defaultProfile) lociNames eng mode minLoci nf

/-- `calculate_distance_matrix` as the square matrix of its cells. -/
def calculateDistanceMatrix (samples : List AllelicProfile)
    (lociNames : List Str) (eng : Engine) (mode : DistanceMode)
    (minLoci : Nat) (nf : Bool) : List (List (Option Nat)) :=
  (List.range samples.length).map (fun i =>
    (List.range samples.length).map (fun j =>
      distanceMatrixEntry samples lociNames eng mode minLoci nf i j))

/-! ### The persisted cache document (distance.rs:208-463)

Persistence is modelled at the level of the structured `ModernCache`
document; the JSON and LZ4 byte encodings are treated as faithful.  The
wall clock visible through `chrono` is an explicit `now : Nat` parameter. -/

/-- `CacheValue` of the serialized document. -/
structure CacheValueM where
  snps : Nat
  indelEvents : Nat
  indelBases : Nat
  computedAt : Nat
  seq1Length : Option Nat
  seq2Length : Option Nat
deriving DecidableEq

/-- `CacheMetadata` of the serialized document. -/
structure CacheMetadataM where
  version : Str
  created : Nat
  lastModified : Nat
  alignmentConfig : AlignmentConfig
  hasherType : Str
  distanceMode : Str
  userNote : Option Str
  totalEntries : Nat
  uniqueLoci : Nat
  formatVersion : Nat
deriving DecidableEq

/-- `ModernCache` of the serialized document. -/
structure ModernCacheM where
  data : List (Str × CacheValueM)
  metadata : CacheMetadataM
deriving DecidableEq

/-- Stand-in for `env!("CARGO_PKG_VERSION")`. -/
def cargoPkgVersion : Str := ['0', '.', '1']

/-- The mode strings written by `save_cache`. -/
def modeString : DistanceMode → Str
  | .snpsOnly => ['s', 'n', 'p', 's']
  | .snpsAndIndelEvents =>
    ['s', 'n', 'p', 's', '-', 'i', 'n', 'd', 'e', 'l', '-',
     'e', 'v', 'e', 'n', 't', 's']
  | .snpsAndIndelBases =>
    ['s', 'n', 'p', 's', '-', 'i', 'n', 'd', 'e', 'l', '-',
     'b', 'a', 's', 'e', 's']
  | .hamming => hammingStr

/-- The string key `"locus:crc1:crc2"` built by `save_cache`. -/
def renderKey (k : DistanceCacheKey) : Str :=
  k.locus ++ ':' :: (natToStr k.crc1 ++ ':' :: natToStr k.crc2)

/-- `DistanceEngine::save_cache` (distance.rs:208-287), producing the
document it serializes. -/
def saveCacheDoc (eng : Engine) (now : Nat) (mode : DistanceMode) :
    ModernCacheM :=
  { data := eng.cache.map (fun p =>
      (renderKey p.1,
       ⟨p.2.snps, p.2.indelEvents, p.2.indelBases, now, none, none⟩)),
    metadata :=
    { version := cargoPkgVersion
      created := now
      lastModified := now
      alignmentConfig := eng.config
      hasherType := eng.hasherType
      distanceMode := modeString mode
      userNote := eng.cacheNote
      totalEntries := eng.cache.length
      uniqueLoci := ((eng.cache.map (fun p => p.1.locus)).dedup).length
      formatVersion := 2 } }

/-- Key parsing in `load_cache` (distance.rs:392-408): split on `':'`,
require exactly three parts, `parse().unwrap_or(0)` on the fingerprints. -/
def parseKeyParts (s : Str) : Option DistanceCacheKey :=
  match splitOnColon s with
  | [p0, p1, p2] => some ⟨p0, (parseU32 p1).getD 0, (parseU32 p2).getD 0⟩
  | _ => none

/-- One iteration of the key-conversion loop of `load_cache`. -/
def loadCacheStep (acc : List (DistanceCacheKey × CacheEntry))
    (p : Str × CacheValueM) : List (DistanceCacheKey × CacheEntry) :=
  match parseKeyParts p.1 with
  | some k => insertA acc k ⟨p.2.snps, p.2.indelEvents, p.2.indelBases⟩
  | none => acc

/-- Error text of the alignment-config compatibility check. -/
def configMismatchMsg : Str :=
  ['c', 'o', 'n', 'f', 'i', 'g', ' ', 'm', 'i', 's', 'm', 'a', 't', 'c', 'h']

/-- Error text of the hasher compatibility check. -/
def hasherMismatchMsg : Str :=
  ['h', 'a', 's', 'h', 'e', 'r', ' ', 'm', 'i', 's', 'm', 'a', 't', 'c', 'h']

/-- `DistanceEngine::load_cache` on a successfully deserialized modern
document (distance.rs:348-463): reject a config or hasher mismatch, warn
only on a mode mismatch, rebuild the internal map from the string keys. -/
def loadCacheDoc (eng : Engine) (doc : ModernCacheM) (_mode : DistanceMode) :
    Except Str Engine :=
  if doc.metadata.alignmentConfig ≠ eng.config then .error configMismatchMsg
  else if doc.metadata.hasherType ≠ eng.hasherType then .error hasherMismatchMsg
  else .ok { eng with cache := doc.data.foldl loadCacheStep []
                      hasNewEntries := false }

/-- `Except` success test, for closed evaluations. -/
def isOkE {ε α : Type} : Except ε α → Bool
  | .ok _ => true
  | .error _ => false

/-! ### Profile matrix and quality filters (data/profile.rs:181-321) -/

/-- `AllelicMatrix` from `data/profile.rs`. -/
structure AllelicMatrix where
  samples : List AllelicProfile
  lociNames : List Str
deriving DecidableEq

/-- Restriction of a sample map to the surviving loci
(`loci_hashes.retain(...)`). -/
def restrictProfile (lociSet : List Str) (p : AllelicProfile) :
    AllelicProfile :=
  ⟨p.sampleId, p.lociHashes.filter (fun kv => decide (kv.1 ∈ lociSet))⟩

/-- Count of non-missing entries of a sample map. -/
def presentCount (p : AllelicProfile) : Nat :=
  (p.lociHashes.filter (fun kv => !(kv.2.isMissingB))).length

/-- Sample completeness `present_loci / total_loci` (exact rationals for the
`f64` division; all inputs used in the proofs are exactly representable). -/
def sampleCompleteness (lociCount : Nat) (p : AllelicProfile) : ℚ :=
  qdiv (presentCount p : ℚ) (lociCount : ℚ)

/-- `loci_hashes.get(locus).map(|h| !h.is_missing()).unwrap_or(false)`. -/
def locusPresentIn (p : AllelicProfile) (locus : Str) : Bool :=
  ((lookupA p.lociHashes locus).map (fun h => !(h.isMissingB))).getD false

/-- Locus completeness `present_samples / total_samples`. -/
def locusCompleteness (samples : List AllelicProfile) (locus : Str) : ℚ :=
  qdiv ((samples.filter (fun s => locusPresentIn s locus)).length : ℚ)
    (samples.length : ℚ)

/-- The four sequential locus include/exclude filters (regexes modelled as
their boolean match functions). -/
def filterLociNames (lociNames : List Str)
    (lociInclude lociExclude : Option (Str → Bool))
    (lociIncludeSet lociExcludeSet : Option (List Str)) : List Str :=
  let l1 := match lociInclude with
    | some f => lociNames.filter f
    | none => lociNames
  let l2 := match lociExclude with
    | some f => l1.filter (fun x => !(f x))
    | none => l1
  let l3 := match lociIncludeSet with
    | some s => l2.filter (fun x => decide (x ∈ s))
    | none => l2
  match lociExcludeSet with
  | some s => l3.filter (fun x => !(decide (x ∈ s)))
  | none => l3

/-- Error text when no sample survives. -/
def noSamplesMsg : Str :=
  ['n', 'o', ' ', 's', 'a', 'm', 'p', 'l', 'e', 's']

/-- Error text when no locus survives. -/
def noLociMsg : Str := ['n', 'o', ' ', 'l', 'o', 'c', 'i']

/-- The map restriction followed by the sample completeness filter
(profile.rs:226-254). -/
def filteredSamples (samples : List AllelicProfile) (sampleThreshold : ℚ)
    (lociKept : List Str) : List AllelicProfile :=
  let samplesRestricted := samples.map (restrictProfile lociKept)
  if sampleThreshold > 0 then
    samplesRestricted.filter (fun s =>
      decide (sampleCompleteness lociKept.length s ≥ sampleThreshold))
  else samplesRestricted

/-- `AllelicMatrix::apply_quality_filters` (profile.rs:181-321): locus
include/exclude filters, map restriction, sample completeness filter,
locus completeness filter (with re-restriction only when loci were
dropped), then the non-empty checks. -/
def applyQualityFilters (m : AllelicMatrix)
    (sampleThreshold locusThreshold : ℚ)
    (lociInclude lociExclude : Option (Str → Bool))
    (lociIncludeSet lociExcludeSet : Option (List Str)) :
    Except Str AllelicMatrix :=
  let lociKept :=
    filterLociNames m.lociNames lociInclude lociExclude lociIncludeSet
      lociExcludeSet
  let samplesKept := filteredSamples m.samples sampleThreshold lociKept
  let step2 :=
    if locusThreshold > 0 then
      let lociKept2 := lociKept.filter (fun locus =>
        decide (locusCompleteness samplesKept locus ≥ locusThreshold))
      if lociKept2.length ≠ lociKept.length then
        (lociKept2, samplesKept.map (restrictProfile lociKept2))
      else (lociKept, samplesKept)
    else (lociKept, samplesKept)
  if step2.2.length = 0 then .error noSamplesMsg
  else if step2.1.length = 0 then .error noLociMsg
  else .ok ⟨step2.2, step2.1⟩

/-! ### Sequence database loading (data/sequences.rs, data/sequence.rs) -/

/-- A FASTA record as handed over by the reader: identifier and raw bytes. -/
structure FastaRecord where
  id : Str
  sequence : List Nat
deriving DecidableEq

/-- `SequenceInfo`. -/
structure SequenceInfo where
  sequence : List Nat
  id : Str
deriving DecidableEq

/-- The collision error of the full-mode loaders, carrying both record
identifiers. -/
def collisionMsg (c : Nat) (id1 id2 : Str) : Str :=
  ['C', 'R', 'C', '3', '2', ' ', 'c', 'o', 'l', 'l', 'i', 's', 'i', 'o',
   'n', ':', ' '] ++ natToStr c ++ [' '] ++ id1 ++ [' ', 'v', 's', ' ']
    ++ id2

/-- Record loop of `SequenceDatabase::load_fasta_into_locus`
(sequences.rs:133-159): a stored distinct sequence under the same CRC32 is
a fatal collision; otherwise insert. -/
def loadFastaIntoLocusAux (acc : List (Nat × SequenceInfo)) :
    List FastaRecord → Except Str (List (Nat × SequenceInfo))
  | [] => .ok acc
  | r :: rest =>
    let c := crc32 r.sequence
    match lookupA acc c with
    | some info =>
      if info.sequence ≠ r.sequence then .error (collisionMsg c info.id r.id)
      else loadFastaIntoLocusAux (insertA acc c ⟨r.sequence, r.id⟩) rest
    | none => loadFastaIntoLocusAux (insertA acc c ⟨r.sequence, r.id⟩) rest

/-- Full-mode FASTA load of one locus. -/
def loadFastaIntoLocus (records : List FastaRecord) :
    Except Str (List (Nat × SequenceInfo)) :=
  loadFastaIntoLocusAux [] records

/-- Record loop of `SequenceDatabase::load_from_directory_selective`
(sequence.rs:141-201) for one locus: keep only required fingerprints;
note the absence of any collision check. -/
def loadSelectiveLocus (required : List Nat) (records : List FastaRecord) :
    List (Nat × SequenceInfo) :=
  records.foldl (fun acc r =>
    let c := crc32 r.sequence
    if c ∈ required then insertA acc c ⟨r.sequence, r.id⟩ else acc) []

/-! ### Recombination scan (bin/recombination.rs:453-565) -/

/-- The read-only inputs of the cache scan loop: the effective locus set,
the `(locus, crc) → sample` index, the retained Hamming pairs and the
density threshold. -/
structure ScanEnv where
  efsaLoci : List Str
  mapping : List ((Str × Nat) × Str)
  validPairs : List (Str × Str)
  threshold : ℚ

/-- The tuple pushed to `recombination_events`. -/
structure RecombEvent where
  sample1 : Str
  sample2 : Str
  locus : Str
  allele1 : Str
  allele2 : Str
  snps : Nat
  indelEvents : Nat
  totalMutations : Nat
  avgLength : ℚ
  snpDensity : ℚ
  indelDensity : ℚ
  totalDensity : ℚ
deriving DecidableEq

/-- The mutable state threaded through the scan loop. -/
structure ScanState where
  processedPairs : List (Str × Nat × Nat)
  events : List RecombEvent
deriving DecidableEq

/-- `(min, max)` canonicalization of a fingerprint pair. -/
def canonPair (a b : Nat) : Nat × Nat := if a ≤ b then (a, b) else (b, a)

/-- The part of the scan loop body after the dedup insertion
(recombination.rs:497-565): resolve both samples (skip when either is
unmapped), apply the Hamming screen, require both lengths present and
non-zero, score, and emit above the threshold. -/
def scanEmit (env : ScanEnv) (st' : ScanState) (locus c1s c2s : Str)
    (crc1 crc2 : Nat) (v : CacheValueM) : ScanState :=
  match lookupA env.mapping (locus, crc1),
        lookupA env.mapping (locus, crc2) with
  | some s1, some s2 =>
    let np := if strLe s1 s2 then (s1, s2) else (s2, s1)
    if np ∉ env.validPairs then st'
    else
      match v.seq1Length, v.seq2Length with
      | some l1, some l2 =>
        if l1 = 0 ∨ l2 = 0 then st'
        else
          let avgLength : ℚ := qdiv ((l1 + l2 : Nat) : ℚ) 2
          let totalMutations := v.snps + v.indelEvents
          let totalDensity : ℚ :=
            qmul (qdiv (totalMutations : ℚ) avgLength) 100
          let snpDensity : ℚ :=
            qmul (qdiv ((v.snps : Nat) : ℚ) avgLength) 100
          let indelDensity : ℚ :=
            qmul (qdiv ((v.indelEvents : Nat) : ℚ) avgLength) 100
          if totalDensity > env.threshold then
            ⟨st'.processedPairs, st'.events ++
              [⟨s1, s2, locus, c1s, c2s, v.snps, v.indelEvents,
                totalMutations, avgLength, snpDensity, indelDensity,
                totalDensity⟩]⟩
          else st'
      | _, _ => st'
  | _, _ => st'

/-- One iteration of the cache scan loop (recombination.rs:453-565):
parse the key, apply the locus filter, skip identical allele strings,
deduplicate by canonical key, then hand over to `scanEmit`. -/
def scanStep (env : ScanEnv) (st : ScanState) (kv : Str × CacheValueM) :
    ScanState :=
  match splitOnColon kv.1 with
  | [locus, c1s, c2s] =>
    if locus ∉ env.efsaLoci then st
    else if c1s = c2s then st
    else
      let crc1 := (parseU32 c1s).getD 0
      let crc2 := (parseU32 c2s).getD 0
      let cp : Str × Nat × Nat := (locus, canonPair crc1 crc2)
      if cp ∈ st.processedPairs then st
      else
        scanEmit env ⟨cp :: st.processedPairs, st.events⟩ locus c1s c2s
          crc1 crc2 kv.2
  | _ => st

/-- The canonical `(locus, min_crc, max_crc)` key of an emitted event. -/
def evCanonKey (ev : RecombEvent) : Str × Nat × Nat :=
  (ev.locus,
   canonPair ((parseU32 ev.allele1).getD 0) ((parseU32 ev.allele2).getD 0))

/-- The whole scan loop over the cache entries. -/
def scanCache (env : ScanEnv) (entries : List (Str × CacheValueM)) :
    ScanState :=
  entries.foldl (scanStep env) ⟨[], []⟩

/-! ### Concrete instances used in closed statements -/

/-- The string `"crc32"`. -/
def crc32Str : Str := ['c', 'r', 'c', '3', '2']

/-- The default DNA `AlignmentConfig` numbers, without a description. -/
def cfgPlain : AlignmentConfig := ⟨2, -1, 5, 2, none⟩

/-- The same four numbers with a description. -/
def cfgDescribed : AlignmentConfig := ⟨2, -1, 5, 2, some ['x']⟩

/-- A locus name. -/
def locusL : Str := ['L']

/-- An engine bound to the Hamming hasher with an empty cache. -/
def engHamming : Engine := ⟨[], cfgPlain, hammingStr, none, false⟩

/-- An engine bound to the CRC32 hasher with an empty cache. -/
def engEmpty : Engine := ⟨[], cfgPlain, crc32Str, none, false⟩

/-- An engine with one cached entry and one entry whose locus name
contains `':'`. -/
def engColonLocus : Engine :=
  ⟨[(⟨['a', ':', 'b'], 1, 2⟩, ⟨1, 0, 0⟩)], cfgPlain, crc32Str, none, false⟩

/-- A small cached engine used by witnesses. -/
def engSmall : Engine :=
  ⟨[(⟨locusL, 11, 22⟩, ⟨3, 1, 2⟩)], cfgPlain, crc32Str, none, false⟩

/-- An engine whose config carries a description. -/
def engDescribed : Engine := ⟨[], cfgDescribed, crc32Str, none, false⟩

/-- A locus name `"X"`. -/
def locusX : Str := ['X']

/-- A locus name `"Y"`. -/
def locusY : Str := ['Y']

/-- A sample whose fingerprint at `X` is a string hash. -/
def profStrA : AllelicProfile := ⟨['A'], [(locusX, .strv ['h'])]⟩

/-- A second sample with the same string fingerprint at `X`. -/
def profStrB : AllelicProfile := ⟨['B'], [(locusX, .strv ['h'])]⟩

/-- First member of a concrete CRC32 collision: two distinct 16-base DNA
sequences with equal IEEE CRC-32 (`4047676763`). -/
def seqColA : List Nat :=
  [71, 65, 84, 65, 84, 84, 84, 65, 71, 84, 65, 65, 67, 84, 67, 65]

/-- Second member of the concrete CRC32 collision. -/
def seqColB : List Nat :=
  [71, 67, 71, 84, 71, 65, 71, 65, 71, 84, 67, 65, 65, 71, 71, 67]

/-- The common CRC-32 value of `seqColA` and `seqColB`. -/
def crcCol : Nat := 4047676763

/-- FASTA record `r1` with the first colliding sequence. -/
def recColA : FastaRecord := ⟨['r', '1'], seqColA⟩

/-- FASTA record `r2` with the second colliding sequence. -/
def recColB : FastaRecord := ⟨['r', '2'], seqColB⟩

/-- The decimal rendering of `u32::MAX`. -/
def strMaxU32 : Str := ['4', '2', '9', '4', '9', '6', '7', '2', '9', '5']

/-- The matrix of the quality-filter counterexample: samples `s,a,b,c`
over loci `X,Y`; `s` carries only `X`, the rest carry only `Y`. -/
def mC9 : AllelicMatrix :=
  ⟨[⟨['s'], [(locusX, .crc32v 1), (locusY, .missing)]⟩,
    ⟨['a'], [(locusX, .missing), (locusY, .crc32v 1)]⟩,
    ⟨['b'], [(locusX, .missing), (locusY, .crc32v 1)]⟩,
    ⟨['c'], [(locusX, .missing), (locusY, .crc32v 1)]⟩],
   [locusX, locusY]⟩

/-- The result of one application of the quality filters to `mC9` with both
thresholds `1/2`: sample `s` survives (its completeness over the
pre-locus-filter universe is `1/2`), locus `X` is dropped. -/
def mC9once : AllelicMatrix :=
  ⟨[⟨['s'], [(locusY, .missing)]⟩, ⟨['a'], [(locusY, .crc32v 1)]⟩,
    ⟨['b'], [(locusY, .crc32v 1)]⟩, ⟨['c'], [(locusY, .crc32v 1)]⟩],
   [locusY]⟩

/-- The result of a second application: sample `s` is now dropped, since
its completeness over the reduced universe `{Y}` is `0`. -/
def mC9twice : AllelicMatrix :=
  ⟨[⟨['a'], [(locusY, .crc32v 1)]⟩, ⟨['b'], [(locusY, .crc32v 1)]⟩,
    ⟨['c'], [(locusY, .crc32v 1)]⟩], [locusY]⟩

/-- `mC9` extended with a fully-missing sample `d`; one application of the
filters with sample threshold `1/2` and locus threshold `0` drops exactly
`d`, reducing `mC9w` to `mC9`. -/
def mC9w : AllelicMatrix :=
  ⟨mC9.samples ++ [⟨['d'], [(locusX, .missing), (locusY, .missing)]⟩],
   [locusX, locusY]⟩

/-- Sample id `"S1"`. -/
def sampleS1 : Str := ['S', '1']

/-- Sample id `"S2"`. -/
def sampleS2 : Str := ['S', '2']

/-- The scan environment of scenario S5, parameterized by the threshold. -/
def envS5 (t : ℚ) : ScanEnv :=
  ⟨[locusL], [((locusL, 11), sampleS1), ((locusL, 22), sampleS2)],
   [(sampleS1, sampleS2)], t⟩

/-- The single enriched cache entry of scenario S5:
`L:11:22` with `snps = 20`, `indel_events = 0` and both lengths 100. -/
def entryS5 : Str × CacheValueM :=
  (['L', ':', '1', '1', ':', '2', '2'], ⟨20, 0, 0, 0, some 100, some 100⟩)

/-- Metadata matching an engine, for hand-built documents. -/
def metaFor (eng : Engine) : CacheMetadataM :=
  ⟨cargoPkgVersion, 0, 0, eng.config, eng.hasherType,
   modeString .snpsOnly, none, 0, 0, 2⟩

/-- A document whose two keys are both malformed in the fingerprint parts,
collapsing onto fingerprint `0`. -/
def docCollapse : ModernCacheM :=
  ⟨[(['L', ':', 'a', 'a', ':', 'b', 'b'], ⟨1, 1, 1, 0, none, none⟩),
    (['L', ':', 'c', 'c', ':', 'd', 'd'], ⟨2, 2, 2, 0, none, none⟩)],
   metaFor engEmpty⟩

/-! ## Helper lemmas -/

/-- `qmul` is multiplication on `ℚ`. -/
theorem qmul_eq_mul (x y : ℚ) : qmul x y = x * y := by
  rw [qmul, Rat.mkRat_eq_div]
  push_cast
  rw [← div_mul_div_comm, Rat.num_div_den, Rat.num_div_den]

/-- `qdiv` is division on `ℚ`. -/
theorem qdiv_eq_div (x y : ℚ) : qdiv x y = x / y := by
  rw [qdiv, Rat.divInt_eq_div]
  rcases eq_or_ne y 0 with h | h
  · subst h; simp
  · have hy : (y.num : ℚ) ≠ 0 := by exact_mod_cast Rat.num_ne_zero.mpr h
    have hxd : (x.den : ℚ) ≠ 0 := Nat.cast_ne_zero.mpr x.den_nz
    have hyd : (y.den : ℚ) ≠ 0 := Nat.cast_ne_zero.mpr y.den_nz
    have hx' : (x.num : ℚ) = x * x.den := (div_eq_iff hxd).mp (Rat.num_div_den x)
    have hy' : (y.num : ℚ) = y * y.den := (div_eq_iff hyd).mp (Rat.num_div_den y)
    push_cast
    rw [hx', hy', div_eq_div_iff (by rw [← hy']; exact mul_ne_zero hy hxd) h]
    ring

theorem lookupA_insertA_self {α β : Type} [DecidableEq α]
    (l : List (α × β)) (k : α) (v : β) : lookupA (insertA l k v) k = some v := by
  simp [insertA, lookupA]

theorem lookupA_filter {α β : Type} [DecidableEq α] (f : α × β → Bool)
    (l : List (α × β)) (k : α) (hf : ∀ v, f (k, v) = true) :
    lookupA (l.filter f) k = lookupA l k := by
  induction l with
  | nil => rfl
  | cons hd tl ih =>
    obtain ⟨a, v⟩ := hd
    by_cases hk : k = a
    · subst hk
      rw [List.filter_cons, hf v]
      simp [lookupA]
    · rw [List.filter_cons]
      cases hfa : f (a, v)
      · simpa [lookupA, hk] using ih
      · simp only [cond_true]
        simp [lookupA, hk, ih]

theorem lookupA_insertA_ne {α β : Type} [DecidableEq α]
    (l : List (α × β)) (k k' : α) (v : β) (h : k' ≠ k) :
    lookupA (insertA l k v) k' = lookupA l k' := by
  simp only [insertA, lookupA, if_neg h]
  exact lookupA_filter _ l k' (fun v => by simp [h])

theorem lookupA_eq_none_of_not_mem {α β : Type} [DecidableEq α]
    (l : List (α × β)) (k : α) (h : k ∉ l.map Prod.fst) :
    lookupA l k = none := by
  induction l with
  | nil => rfl
  | cons hd tl ih =>
    obtain ⟨a, v⟩ := hd
    simp only [List.map_cons, List.mem_cons, not_or] at h
    simp [lookupA, h.1, ih h.2]

/-- Folding `HashMap::insert` over a list with pairwise-distinct keys into
any accumulator: a key of the list gets its (unique) value, the rest fall
through to the accumulator. -/
theorem lookupA_foldl_ins {α β : Type} [DecidableEq α]
    (l : List (α × β)) (acc : List (α × β))
    (hnd : (l.map Prod.fst).Nodup) (k : α) :
    lookupA (l.foldl (fun a p => insertA a p.1 p.2) acc) k =
      match lookupA l k with
      | some v => some v
      | none => lookupA acc k := by
  induction l generalizing acc with
  | nil => simp [lookupA]
  | cons hd tl ih =>
    obtain ⟨k0, v0⟩ := hd
    simp only [List.map_cons, List.nodup_cons] at hnd
    rw [List.foldl_cons, ih _ hnd.2]
    by_cases hk : k = k0
    · subst hk
      rw [lookupA_eq_none_of_not_mem tl k hnd.1]
      simp [lookupA, lookupA_insertA_self]
    · have : lookupA ((k0, v0) :: tl) k = lookupA tl k := by
        simp [lookupA, hk]
      rw [this, lookupA_insertA_ne acc k0 k v0 hk]

theorem splitOnColon_ne_nil (s : Str) : splitOnColon s ≠ [] := by
  cases s with
  | nil => simp [splitOnColon]
  | cons c rest =>
    rw [splitOnColon]
    rcases h : splitOnColon rest with _ | ⟨p, ps⟩
    · simp
    · by_cases hc : c = ':' <;> simp [hc]

theorem splitOnColon_of_no_colon (s : Str) (h : ':' ∉ s) :
    splitOnColon s = [s] := by
  induction s with
  | nil => rfl
  | cons c rest ih =>
    simp only [List.mem_cons, not_or] at h
    rw [splitOnColon, ih h.2]
    have hc : ¬ (c = ':') := fun hcc => h.1 hcc.symm
    simp [hc]

theorem splitOnColon_append (a b : Str) (h : ':' ∉ a) :
    splitOnColon (a ++ ':' :: b) = a :: splitOnColon b := by
  induction a with
  | nil =>
    simp only [List.nil_append]
    rw [splitOnColon]
    rcases hb : splitOnColon b with _ | ⟨p, ps⟩
    · exact absurd hb (splitOnColon_ne_nil b)
    · simp
  | cons c a' ih =>
    simp only [List.mem_cons, not_or] at h
    simp only [List.cons_append]
    rw [splitOnColon, ih h.2]
    have hc : ¬ (c = ':') := fun hcc => h.1 hcc.symm
    simp [hc]

theorem natToStrAux_fuel (n : Nat) : ∀ f1 f2 : Nat, n < f1 → n < f2 →
    natToStrAux f1 n = natToStrAux f2 n := by
  induction n using Nat.strong_induction_on with
  | _ n ih =>
    intro f1 f2 h1 h2
    match f1, f2 with
    | fa + 1, fb + 1 =>
      by_cases hn : n < 10
      · simp [natToStrAux, hn]
      · have hpos : 0 < n := by omega
        have hlt : n / 10 < n := Nat.div_lt_self hpos (by omega)
        rw [natToStrAux, natToStrAux, if_neg hn, if_neg hn,
          ih (n / 10) hlt fa fb (by omega) (by omega)]

theorem natToStr_lt10 (n : Nat) (h : n < 10) : natToStr n = [digitChar n] := by
  simp [natToStr, natToStrAux, h]

theorem natToStr_ge10 (n : Nat) (h : 10 ≤ n) :
    natToStr n = natToStr (n / 10) ++ [digitChar (n % 10)] := by
  have hpos : 0 < n := by omega
  have hlt : n / 10 < n := Nat.div_lt_self hpos (by omega)
  rw [natToStr, natToStr, natToStrAux, if_neg (by omega)]
  rw [natToStrAux_fuel (n / 10) n (n / 10 + 1) hlt (Nat.lt_succ_self _)]

theorem digitChar_toNat (d : Nat) (h : d < 10) :
    (digitChar d).toNat = 48 + d := by
  interval_cases d <;> decide

theorem digitChar_isDigit (d : Nat) (h : d < 10) :
    (digitChar d).isDigit = true := by
  interval_cases d <;> decide

theorem isDigit_ne_colon (c : Char) (h : c.isDigit = true) : c ≠ ':' := by
  intro hc
  subst hc
  exact absurd h (by decide)

theorem isDigit_ne_plus (c : Char) (h : c.isDigit = true) : c ≠ '+' := by
  intro hc
  subst hc
  exact absurd h (by decide)

theorem natToStr_all_digits (n : Nat) : ∀ c ∈ natToStr n, c.isDigit := by
  induction n using Nat.strong_induction_on with
  | _ n ih =>
    by_cases hn : n < 10
    · rw [natToStr_lt10 n hn]
      intro c hc
      simp only [List.mem_singleton] at hc
      subst hc
      exact digitChar_isDigit n hn
    · rw [natToStr_ge10 n (by omega)]
      intro c hc
      rcases List.mem_append.mp hc with h | h
      · exact ih (n / 10) (Nat.div_lt_self (by omega) (by omega)) c h
      · simp only [List.mem_singleton] at h
        subst h
        exact digitChar_isDigit _ (Nat.mod_lt n (by omega))

theorem colon_not_mem_natToStr (n : Nat) : ':' ∉ natToStr n := by
  intro h
  exact isDigit_ne_colon ':' (natToStr_all_digits n ':' h) rfl

theorem digitsVal_append_digit (a : Str) (c : Char) :
    digitsVal (a ++ [c]) = 10 * digitsVal a + (c.toNat - 48) := by
  simp [digitsVal, List.foldl_append]

theorem digitsVal_natToStr (n : Nat) : digitsVal (natToStr n) = n := by
  induction n using Nat.strong_induction_on with
  | _ n ih =>
    by_cases hn : n < 10
    · rw [natToStr_lt10 n hn]
      simp [digitsVal, digitChar_toNat n hn]
    · rw [natToStr_ge10 n (by omega), digitsVal_append_digit,
        ih (n / 10) (Nat.div_lt_self (by omega) (by omega)),
        digitChar_toNat _ (Nat.mod_lt n (by omega))]
      omega

theorem natToStr_ne_nil (n : Nat) : natToStr n ≠ [] := by
  by_cases hn : n < 10
  · rw [natToStr_lt10 n hn]; simp
  · rw [natToStr_ge10 n (by omega)]; simp

theorem parseU32_natToStr (n : Nat) (h : n < 4294967296) :
    parseU32 (natToStr n) = some n := by
  have hstrip : stripPlus (natToStr n) = natToStr n := by
    rcases hs : natToStr n with _ | ⟨c, rest⟩
    · rfl
    · have hc : c.isDigit := by
        apply natToStr_all_digits n
        rw [hs]; exact List.mem_cons_self c rest
      rw [stripPlus, if_neg (isDigit_ne_plus c hc)]
  rw [parseU32, hstrip]
  rw [if_neg (natToStr_ne_nil n)]
  have hall : (natToStr n).all Char.isDigit = true := by
    rw [List.all_eq_true]
    intro c hc
    exact natToStr_all_digits n c hc
  rw [if_pos hall, digitsVal_natToStr, if_pos h]

/-- Rendering and re-parsing a cache key round-trips whenever the locus
name is free of `':'` and the fingerprints are `u32` values. -/
theorem parseKeyParts_renderKey (k : DistanceCacheKey) (hl : ':' ∉ k.locus)
    (h1 : k.crc1 < 4294967296) (h2 : k.crc2 < 4294967296) :
    parseKeyParts (renderKey k) = some k := by
  rw [renderKey, parseKeyParts,
    splitOnColon_append _ _ hl,
    splitOnColon_append _ _ (colon_not_mem_natToStr _),
    splitOnColon_of_no_colon _ (colon_not_mem_natToStr _)]
  simp [parseU32_natToStr _ h1, parseU32_natToStr _ h2]

/-- The accumulator pass of `calculate_sample_distance` in closed form. -/
theorem sampleDistance_foldl_closed (s1 s2 : AllelicProfile) (eng : Engine)
    (mode : DistanceMode) (nf : Bool) (lociNames : List Str) :
    ∀ a b : Nat,
    lociNames.foldl (fun (acc : Nat × Nat) locus =>
      let c1 := profCrc s1 locus
      let c2 := profCrc s2 locus
      (acc.1 + getDistance eng locus c1 c2 mode nf,
       acc.2 + (if c1 ≠ uMAX ∧ c2 ≠ uMAX then 1 else 0))) (a, b) =
      (a + sumLociDistance s1 s2 lociNames eng mode nf,
       b + sharedLociCount s1 s2 lociNames) := by
  induction lociNames with
  | nil =>
    intro a b
    simp [sumLociDistance, sharedLociCount]
  | cons l rest ih =>
    intro a b
    rw [List.foldl_cons, ih]
    simp only [sumLociDistance, sharedLociCount, List.map_cons, List.sum_cons,
      List.countP_cons, Prod.mk.injEq]
    constructor
    · omega
    · by_cases h : profCrc s1 l ≠ uMAX ∧ profCrc s2 l ≠ uMAX
      · simp only [if_pos h, decide_eq_true_eq, h]
        simp
        omega
      · simp only [if_neg h, decide_eq_true_eq, h]
        simp

/-- `calculate_sample_distance` equals its closed form: the sum over all
loci, gated by the shared-locus count. -/
theorem calculateSampleDistance_closed (s1 s2 : AllelicProfile)
    (lociNames : List Str) (eng : Engine) (mode : DistanceMode)
    (minLoci : Nat) (nf : Bool) :
    calculateSampleDistance s1 s2 lociNames eng mode minLoci nf =
      if sharedLociCount s1 s2 lociNames ≥ minLoci
      then some (sumLociDistance s1 s2 lociNames eng mode nf) else none := by
  rw [calculateSampleDistance, sampleDistance_foldl_closed]
  simp

theorem scanEmit_processed (env : ScanEnv) (st' : ScanState)
    (locus c1s c2s : Str) (crc1 crc2 : Nat) (v : CacheValueM) :
    (scanEmit env st' locus c1s c2s crc1 crc2 v).processedPairs =
      st'.processedPairs := by
  rw [scanEmit]
  rcases lookupA env.mapping (locus, crc1) with _ | s1 <;>
    rcases lookupA env.mapping (locus, crc2) with _ | s2 <;>
    dsimp only
  repeat' split
  all_goals rfl

theorem scanEmit_events (env : ScanEnv) (st' : ScanState)
    (locus c1s c2s : Str) (crc1 crc2 : Nat) (v : CacheValueM)
    (hc1 : crc1 = (parseU32 c1s).getD 0) (hc2 : crc2 = (parseU32 c2s).getD 0) :
    (scanEmit env st' locus c1s c2s crc1 crc2 v).events = st'.events ∨
      ∃ ev, (scanEmit env st' locus c1s c2s crc1 crc2 v).events =
          st'.events ++ [ev] ∧ evCanonKey ev = (locus, canonPair crc1 crc2) := by
  rw [scanEmit]
  rcases lookupA env.mapping (locus, crc1) with _ | s1 <;>
    rcases lookupA env.mapping (locus, crc2) with _ | s2 <;>
    dsimp only
  any_goals (left; rfl)
  by_cases hnp : (if strLe s1 s2 = true then (s1, s2) else (s2, s1)) ∉
      env.validPairs
  · rw [if_pos hnp]
    exact Or.inl rfl
  · rw [if_neg hnp]
    rcases v.seq1Length with _ | l1 <;> rcases v.seq2Length with _ | l2 <;>
      dsimp only
    any_goals (left; rfl)
    by_cases hl : l1 = 0 ∨ l2 = 0
    · rw [if_pos hl]
      exact Or.inl rfl
    · rw [if_neg hl]
      by_cases ht :
          qmul (qdiv ((v.snps + v.indelEvents : Nat) : ℚ)
            (qdiv ((l1 + l2 : Nat) : ℚ) 2)) 100 > env.threshold
      · rw [if_pos ht]
        refine Or.inr ⟨_, rfl, ?_⟩
        simp [evCanonKey, hc1, hc2]
      · rw [if_neg ht]
        exact Or.inl rfl

/-- The invariant maintained by the scan loop: emitted canonical keys are
pairwise distinct and all recorded as processed. -/
def ScanInv (st : ScanState) : Prop :=
  (st.events.map evCanonKey).Nodup ∧
    ∀ ev ∈ st.events, evCanonKey ev ∈ st.processedPairs

theorem scanStep_inv (env : ScanEnv) (st : ScanState)
    (kv : Str × CacheValueM) (h : ScanInv st) : ScanInv (scanStep env st kv) := by
  rw [scanStep]
  generalize splitOnColon kv.1 = parts
  rcases parts with _ | ⟨locus, _ | ⟨c1s, _ | ⟨c2s, _ | _⟩⟩⟩ <;> dsimp only
  any_goals exact h
  split
  · exact h
  split
  · exact h
  split
  · exact h
  next hcp =>
    have hproc := scanEmit_processed env
      ⟨(locus, canonPair ((parseU32 c1s).getD 0) ((parseU32 c2s).getD 0)) ::
        st.processedPairs, st.events⟩ locus c1s c2s
      ((parseU32 c1s).getD 0) ((parseU32 c2s).getD 0) kv.2
    rcases scanEmit_events env
      ⟨(locus, canonPair ((parseU32 c1s).getD 0) ((parseU32 c2s).getD 0)) ::
        st.processedPairs, st.events⟩ locus c1s c2s
      ((parseU32 c1s).getD 0) ((parseU32 c2s).getD 0) kv.2 rfl rfl with
      hev | ⟨ev, hev, hkey⟩
    · constructor
      · rw [hev]; exact h.1
      · intro e he
        rw [hev] at he
        rw [hproc]
        exact List.mem_cons_of_mem _ (h.2 e he)
    · constructor
      · rw [hev]
        simp only [List.map_append, List.map_cons, List.map_nil]
        rw [List.nodup_append]
        refine ⟨h.1, List.nodup_singleton _, ?_⟩
        intro x hx hx1
        simp only [List.mem_singleton] at hx1
        subst hx1
        rcases List.mem_map.mp hx with ⟨e, he, hke⟩
        have hmem := h.2 e he
        rw [hke, hkey] at hmem
        exact hcp hmem
      · intro e he
        rw [hev] at he
        rw [hproc]
        rcases List.mem_append.mp he with hin | hone
        · exact List.mem_cons_of_mem _ (h.2 e hin)
        · simp only [List.mem_singleton] at hone
          subst hone
          rw [hkey]
          exact List.mem_cons_self _ _

theorem scanCache_inv (env : ScanEnv) (entries : List (Str × CacheValueM)) :
    ScanInv (scanCache env entries) := by
  rw [scanCache]
  have h : ∀ st : ScanState, ScanInv st →
      ScanInv (entries.foldl (scanStep env) st) := by
    induction entries with
    | nil => intro st h; exact h
    | cons e rest ih =>
      intro st h
      rw [List.foldl_cons]
      exact ih _ (scanStep_inv env st e h)
  exact h ⟨[], []⟩ ⟨List.nodup_nil, by intro e he; cases he⟩

/-- On a successful full-mode load, a sequence once stored for a CRC is
still the stored sequence at that CRC at the end. -/
theorem loadFasta_stored_persist (rest : List FastaRecord) :
    ∀ (acc m : List (Nat × SequenceInfo)),
    loadFastaIntoLocusAux acc rest = .ok m →
    ∀ (c : Nat) (s : List Nat),
    (lookupA acc c).map SequenceInfo.sequence = some s →
    (lookupA m c).map SequenceInfo.sequence = some s := by
  induction rest with
  | nil =>
    intro acc m h c s hs
    rw [loadFastaIntoLocusAux] at h
    injection h with h
    subst h
    exact hs
  | cons r rest ih =>
    intro acc m h c s hs
    rw [loadFastaIntoLocusAux] at h
    rcases hl : lookupA acc (crc32 r.sequence) with _ | info <;> rw [hl] at h <;>
      (try dsimp only at h)
    · refine ih _ _ h c s ?_
      by_cases hc : c = crc32 r.sequence
      · subst hc
        rw [hl] at hs
        cases hs
      · rw [lookupA_insertA_ne _ _ _ _ hc]
        exact hs
    · by_cases hseq : info.sequence ≠ r.sequence
      · rw [if_pos hseq] at h
        cases h
      · rw [if_neg hseq] at h
        push_neg at hseq
        refine ih _ _ h c s ?_
        by_cases hc : c = crc32 r.sequence
        · subst hc
          rw [lookupA_insertA_self]
          rw [hl] at hs
          have hs2 : some info.sequence = some s := hs
          injection hs2 with hs3
          show some r.sequence = some s
          rw [← hseq, hs3]
        · rw [lookupA_insertA_ne _ _ _ _ hc]
          exact hs

/-- On a successful full-mode load, every record of the input is stored
under its CRC with exactly its own sequence. -/
theorem loadFasta_mem_stored (records : List FastaRecord) :
    ∀ (acc m : List (Nat × SequenceInfo)),
    loadFastaIntoLocusAux acc records = .ok m →
    ∀ r ∈ records,
    (lookupA m (crc32 r.sequence)).map SequenceInfo.sequence =
      some r.sequence := by
  induction records with
  | nil =>
    intro acc m _ r hr
    cases hr
  | cons r0 rest ih =>
    intro acc m h r hr
    rw [loadFastaIntoLocusAux] at h
    rcases hl : lookupA acc (crc32 r0.sequence) with _ | info <;> rw [hl] at h <;>
      (try dsimp only at h)
    · rcases List.mem_cons.mp hr with hr0 | hrr
      · subst hr0
        refine loadFasta_stored_persist rest _ m h _ _ ?_
        rw [lookupA_insertA_self]
        rfl
      · exact ih _ m h r hrr
    · by_cases hseq : info.sequence ≠ r0.sequence
      · rw [if_pos hseq] at h
        cases h
      · rw [if_neg hseq] at h
        rcases List.mem_cons.mp hr with hr0 | hrr
        · subst hr0
          refine loadFasta_stored_persist rest _ m h _ _ ?_
          rw [lookupA_insertA_self]
          rfl
        · exact ih _ m h r hrr

/-- The selective loader retains a CRC exactly when it is required and
carried by some record. -/
theorem loadSelective_keys_aux (required : List Nat)
    (records : List FastaRecord) :
    ∀ (acc : List (Nat × SequenceInfo)) (c : Nat),
    (lookupA (records.foldl (fun acc r =>
      let cc := crc32 r.sequence
      if cc ∈ required then insertA acc cc ⟨r.sequence, r.id⟩ else acc)
      acc) c).isSome = true ↔
      ((lookupA acc c).isSome = true ∨
        (c ∈ required ∧ ∃ r ∈ records, crc32 r.sequence = c)) := by
  induction records with
  | nil =>
    intro acc c
    simp
  | cons r rest ih =>
    intro acc c
    rw [List.foldl_cons]
    dsimp only
    by_cases hreq : crc32 r.sequence ∈ required
    · rw [if_pos hreq, ih]
      by_cases hc : c = crc32 r.sequence
      · subst hc
        rw [lookupA_insertA_self]
        constructor
        · intro _
          exact Or.inr ⟨hreq, r, List.mem_cons_self _ _, rfl⟩
        · intro _
          exact Or.inl rfl
      · rw [lookupA_insertA_ne _ _ _ _ hc]
        constructor
        · rintro (hs | ⟨hcr, rr, hrr, hcc⟩)
          · exact Or.inl hs
          · exact Or.inr ⟨hcr, rr, List.mem_cons_of_mem _ hrr, hcc⟩
        · rintro (hs | ⟨hcr, rr, hrr, hcc⟩)
          · exact Or.inl hs
          · rcases List.mem_cons.mp hrr with h0 | hmem
            · subst h0
              exact absurd hcc.symm hc
            · exact Or.inr ⟨hcr, rr, hmem, hcc⟩
    · rw [if_neg hreq, ih]
      constructor
      · rintro (hs | ⟨hcr, rr, hrr, hcc⟩)
        · exact Or.inl hs
        · exact Or.inr ⟨hcr, rr, List.mem_cons_of_mem _ hrr, hcc⟩
      · rintro (hs | ⟨hcr, rr, hrr, hcc⟩)
        · exact Or.inl hs
        · rcases List.mem_cons.mp hrr with h0 | hmem
          · subst h0
            rw [hcc] at hreq
            exact absurd (hcc ▸ hcr) hreq
          · exact Or.inr ⟨hcr, rr, hmem, hcc⟩

/-- The conjunction of the four locus include/exclude predicates. -/
def lociPred (lociInclude lociExclude : Option (Str → Bool))
    (lociIncludeSet lociExcludeSet : Option (List Str)) (x : Str) : Bool :=
  (match lociInclude with | some f => f x | none => true) &&
  (match lociExclude with | some f => !(f x) | none => true) &&
  (match lociIncludeSet with | some s => decide (x ∈ s) | none => true) &&
  (match lociExcludeSet with | some s => !(decide (x ∈ s)) | none => true)

theorem filterLociNames_eq_filter (l : List Str)
    (i e : Option (Str → Bool)) (is es : Option (List Str)) :
    filterLociNames l i e is es = l.filter (fun x => lociPred i e is es x) := by
  rcases i with _ | f <;> rcases e with _ | g <;> rcases is with _ | s <;>
    rcases es with _ | t <;>
    simp [filterLociNames, lociPred, List.filter_filter, Bool.and_comm,
      Bool.and_assoc, Bool.and_left_comm]

theorem filter_idem {α : Type} (p : α → Bool) (l : List α) :
    (l.filter p).filter p = l.filter p := by
  rw [List.filter_eq_self]
  intro a ha
  exact (List.mem_filter.mp ha).2

theorem restrictProfile_idem (lociSet : List Str) (p : AllelicProfile) :
    restrictProfile lociSet (restrictProfile lociSet p) =
      restrictProfile lociSet p := by
  rcases p with ⟨sid, lh⟩
  simp [restrictProfile, filter_idem]

theorem restrictProfile_map_idem (lociSet : List Str)
    (l : List AllelicProfile) :
    (l.map (restrictProfile lociSet)).map (restrictProfile lociSet) =
      l.map (restrictProfile lociSet) := by
  rw [List.map_map]
  refine List.map_congr_left ?_
  intro a _
  exact restrictProfile_idem lociSet a

theorem filteredSamples_restricted (samples : List AllelicProfile) (st : ℚ)
    (L : List Str) :
    ∀ x ∈ filteredSamples samples st L, restrictProfile L x = x := by
  intro x hx
  simp only [filteredSamples] at hx
  by_cases hst : st > 0
  · rw [if_pos hst] at hx
    rcases List.mem_map.mp (List.mem_filter.mp hx).1 with ⟨y, _, rfl⟩
    exact restrictProfile_idem L y
  · rw [if_neg hst] at hx
    rcases List.mem_map.mp hx with ⟨y, _, rfl⟩
    exact restrictProfile_idem L y

theorem map_restrict_of_restricted (L : List Str) (X : List AllelicProfile)
    (hX : ∀ x ∈ X, restrictProfile L x = x) :
    X.map (restrictProfile L) = X := by
  have h1 : X.map (restrictProfile L) = X.map id := List.map_congr_left hX
  rw [h1, List.map_id]

theorem filteredSamples_idem (samples : List AllelicProfile) (st : ℚ)
    (L : List Str) :
    filteredSamples (filteredSamples samples st L) st L =
      filteredSamples samples st L := by
  have hmap : (filteredSamples samples st L).map (restrictProfile L) =
      filteredSamples samples st L :=
    map_restrict_of_restricted L _ (filteredSamples_restricted samples st L)
  by_cases hst : st > 0
  · have hout : ∀ Y : List AllelicProfile, filteredSamples Y st L =
        (Y.map (restrictProfile L)).filter (fun s =>
          decide (sampleCompleteness L.length s ≥ st)) := by
      intro Y
      simp only [filteredSamples]
      rw [if_pos hst]
    rw [hout (filteredSamples samples st L), hmap]
    rw [List.filter_eq_self.mpr]
    intro x hx
    rw [hout samples] at hx
    exact (List.mem_filter.mp hx).2
  · have hout : ∀ Y : List AllelicProfile, filteredSamples Y st L =
        Y.map (restrictProfile L) := by
      intro Y
      simp only [filteredSamples]
      rw [if_neg hst]
    rw [hout (filteredSamples samples st L), hmap]

/-! ## Claim theorems -/

/-- C1 (amended).  For every engine whose bound hasher is not the Hamming
hasher, `get_distance` satisfies the claimed contract exactly: `0` for a
missing fingerprint on either side, `0` for equal fingerprints without a
lookup, the mode projection of the cached triple for a cached canonical
pair, and on a cache miss — or a zero projection despite different
fingerprints — `1` exactly when the fallback is enabled and the mode is
`SnpsOnly`, otherwise `0`.  For a Hamming-hasher engine the claim fails:
any two distinct non-missing fingerprints yield `1` regardless of the
cache, the mode and the fallback flag (the fast path at distance.rs:138). -/
theorem c1_get_distance_contract :
    (∀ (eng : Engine) (locus : Str) (c1 c2 : Nat) (mode : DistanceMode)
      (nf : Bool), eng.hasherType ≠ hammingStr →
      getDistance eng locus c1 c2 mode nf =
        claimGetDistance eng.cache locus c1 c2 mode nf) ∧
    (∀ (eng : Engine) (locus : Str) (c1 c2 : Nat) (mode : DistanceMode)
      (nf : Bool), eng.hasherType = hammingStr →
      c1 ≠ uMAX → c2 ≠ uMAX → c1 ≠ c2 →
      getDistance eng locus c1 c2 mode nf = 1) := by
  constructor
  · intro eng locus c1 c2 mode nf hham
    rw [getDistance, claimGetDistance]
    by_cases h1 : c1 = uMAX ∨ c2 = uMAX
    · rw [if_pos h1, if_pos h1]
    rw [if_neg h1, if_neg h1]
    by_cases h2 : c1 = c2
    · rw [if_pos h2, if_pos h2]
    rw [if_neg h2, if_neg h2, if_neg hham]
    dsimp only
    rcases hl : lookupA eng.cache
        ⟨locus, if c1 ≤ c2 then c1 else c2, if c1 ≤ c2 then c2 else c1⟩ with
      _ | entry <;> dsimp only
    · cases nf <;> cases mode <;> simp
    · by_cases hd : modeProjection entry mode = 0
      · rw [hd]
        cases nf <;> cases mode <;> simp [h2]
      · rw [if_neg (by simp [hd]), if_neg hd]
  · intro eng locus c1 c2 mode nf hham h1 h2 hne
    rw [getDistance, if_neg (by simp [h1, h2]), if_neg hne, if_pos hham]

/-- C1 witness: the non-Hamming contract at a concrete engine and input. -/
theorem c1_witness :
    getDistance engEmpty locusL 1 2 .snpsOnly false =
      claimGetDistance engEmpty.cache locusL 1 2 .snpsOnly false :=
  c1_get_distance_contract.1 engEmpty locusL 1 2 .snpsOnly false (by decide)

/-- C1 counterexample.  With the Hamming hasher, an empty cache and the
fallback disabled (`no_hamming_fallback = true`), distinct fingerprints in
`SnpsOnly` mode return `1`; the claim prescribes `0` for this cache miss,
as the second conjunct shows on the claim's own contract. -/
theorem c1_counterexample :
    getDistance engHamming locusL 1 2 .snpsOnly true = 1 ∧
    claimGetDistance engHamming.cache locusL 1 2 .snpsOnly true = 0 := by
  constructor <;> decide

/-- C3 (confirmed).  The assembled matrix has `Some 0` on the diagonal, is
symmetric, and `get_distance(locus, f, f, mode, *) = 0` for every
fingerprint `f`. -/
theorem c3_identity_symmetry :
    ∀ (samples : List AllelicProfile) (lociNames : List Str) (eng : Engine)
      (mode : DistanceMode) (minLoci : Nat) (nf : Bool),
    (∀ i, i < samples.length →
      (((calculateDistanceMatrix samples lociNames eng mode minLoci nf).getD
        i []).getD i none) = some 0) ∧
    (∀ i j, i < samples.length → j < samples.length →
      (((calculateDistanceMatrix samples lociNames eng mode minLoci nf).getD
        i []).getD j none) =
      (((calculateDistanceMatrix samples lociNames eng mode minLoci nf).getD
        j []).getD i none)) ∧
    (∀ (locus : Str) (f : Nat), getDistance eng locus f f mode nf = 0) := by
  intro samples lociNames eng mode minLoci nf
  have hcell : ∀ i j, i < samples.length → j < samples.length →
      (((calculateDistanceMatrix samples lociNames eng mode minLoci nf).getD
        i []).getD j none) =
        distanceMatrixEntry samples lociNames eng mode minLoci nf i j := by
    intro i j hi hj
    rw [calculateDistanceMatrix]
    simp only [List.getD_eq_getElem?_getD, List.getElem?_map,
      List.getElem?_range hi, List.getElem?_range hj, Option.map_some',
      Option.getD_some]
  refine ⟨?_, ?_, ?_⟩
  · intro i hi
    rw [hcell i i hi hi, distanceMatrixEntry, if_pos rfl]
  · intro i j hi hj
    rw [hcell i j hi hj, hcell j i hj hi]
    rw [distanceMatrixEntry, distanceMatrixEntry]
    rcases Nat.lt_trichotomy i j with h | h | h
    · rw [if_neg (by omega), if_pos h, if_neg (by omega), if_neg (by omega)]
    · rw [if_pos h, if_pos h.symm]
    · rw [if_neg (by omega), if_neg (by omega), if_neg (by omega), if_pos h]
  · intro locus f
    rw [getDistance]
    by_cases h : f = uMAX
    · rw [if_pos (Or.inl h)]
    · rw [if_neg (by simp [h]), if_pos rfl]

/-- C3 witness: diagonal, symmetry and the identity law at a concrete
two-sample instance. -/
theorem c3_witness :
    ((((calculateDistanceMatrix [profStrA, profStrB] [locusX] engEmpty
      .snpsOnly 0 false).getD 0 []).getD 0 none) = some 0) ∧
    ((((calculateDistanceMatrix [profStrA, profStrB] [locusX] engEmpty
      .snpsOnly 0 false).getD 0 []).getD 1 none) =
     (((calculateDistanceMatrix [profStrA, profStrB] [locusX] engEmpty
      .snpsOnly 0 false).getD 1 []).getD 0 none)) ∧
    getDistance engEmpty locusL 7 7 .snpsOnly false = 0 := by
  have h := c3_identity_symmetry [profStrA, profStrB] [locusX] engEmpty
    .snpsOnly 0 false
  exact ⟨h.1 0 (by decide), h.2.1 0 1 (by decide) (by decide),
    h.2.2 locusL 7⟩

/-- C2 (amended).  The per-pair distance iterates the locus list and
equals the accumulated `engine.get` sum, defined exactly when the
shared-locus count reaches `min_loci`; a locus counts as shared exactly
when both samples' fingerprints at it are CRC32-valued (string-valued
fingerprints are mapped to `u32::MAX` by `as_crc32().unwrap_or` and so are
treated as missing, which is where the claim's "non-missing" fails). -/
theorem c2_sample_distance :
    (∀ (s1 s2 : AllelicProfile) (lociNames : List Str) (eng : Engine)
      (mode : DistanceMode) (minLoci : Nat) (nf : Bool),
      calculateSampleDistance s1 s2 lociNames eng mode minLoci nf =
        if sharedLociCount s1 s2 lociNames ≥ minLoci
        then some (sumLociDistance s1 s2 lociNames eng mode nf) else none) ∧
    (∀ (s : AllelicProfile) (locus : Str),
      profCrc s locus ≠ uMAX ↔
        ∃ n, n ≠ uMAX ∧ lookupA s.lociHashes locus = some (.crc32v n)) := by
  constructor
  · exact calculateSampleDistance_closed
  · intro s locus
    rw [profCrc]
    rcases hl : lookupA s.lociHashes locus with _ | h
    · simp [uMAX]
    · rcases h with n | str | _
      · simp [AlleleHash.asCrc32, eq_comm]
      · simp [AlleleHash.asCrc32, uMAX]
      · simp [AlleleHash.asCrc32, uMAX]

/-- C2 counterexample.  Two samples carrying the same string-valued (non
CRC32) fingerprint at the only locus: both fingerprints are non-missing,
so the claim counts the locus as shared (second conjunct: the non-missing
count is 1 ≥ min_loci = 1) and predicts a defined distance; the code maps
string hashes to `u32::MAX` and returns `None`. -/
theorem c2_counterexample :
    calculateSampleDistance profStrA profStrB [locusX] engEmpty .snpsOnly 1
      false = none ∧
    [locusX].countP (fun l =>
      !(((lookupA profStrA.lociHashes l).getD .missing).isMissingB) &&
      !(((lookupA profStrB.lociHashes l).getD .missing).isMissingB)) = 1 := by
  constructor <;> decide

/-- C7 (confirmed).  `parse_allele`: the empty token, `"NA"` and the
configured missing marker map to the missing fingerprint; a decimal `u32`
token distinct from those is accepted as `Crc32(n)` for `n ≠ 2^32-1`;
non-integer tokens fail with an error; the token `4294967295` (`2^32-1`)
is rejected as an allele number — `from_crc32` maps it to the missing
fingerprint, never to a `Crc32` value. -/
theorem c7_parse_allele :
    (∀ m : Str, parseAllele [] m = .ok .missing) ∧
    (∀ m : Str, parseAllele strNA m = .ok .missing) ∧
    (∀ m : Str, trimStr m = m → parseAllele m m = .ok .missing) ∧
    (∀ (t m : Str) (n : Nat), trimStr t ≠ [] → trimStr t ≠ strNA →
      trimStr t ≠ m → parseU32 (trimStr t) = some n → n ≠ uMAX →
      parseAllele t m = .ok (.crc32v n)) ∧
    (∀ (t m : Str), trimStr t ≠ [] → trimStr t ≠ strNA → trimStr t ≠ m →
      parseU32 (trimStr t) = none → ∃ e, parseAllele t m = .error e) ∧
    (∀ m : Str, m ≠ strMaxU32 → parseAllele strMaxU32 m = .ok .missing) := by
  refine ⟨?_, ?_, ?_, ?_, ?_, ?_⟩
  · intro m
    rw [parseAllele]
    rw [if_pos (Or.inl (by decide))]
  · intro m
    rw [parseAllele]
    rw [if_pos (Or.inr (Or.inl (by decide)))]
  · intro m hm
    rw [parseAllele]
    rw [if_pos (Or.inr (Or.inr hm))]
  · intro t m n h1 h2 h3 h4 h5
    rw [parseAllele]
    rw [if_neg (by push_neg; exact ⟨h1, h2, h3⟩)]
    simp only [h4, fromCrc32, if_neg h5]
  · intro t m h1 h2 h3 h4
    rw [parseAllele]
    rw [if_neg (by push_neg; exact ⟨h1, h2, h3⟩)]
    rw [h4]
    exact ⟨parseErrMsg, rfl⟩
  · intro m hm
    rw [parseAllele]
    rw [if_neg (by
      push_neg
      exact ⟨by decide, by decide, fun h => hm (by rw [← h]; decide)⟩)]
    simp [show parseU32 (trimStr strMaxU32) = some uMAX from by decide,
      fromCrc32]

/-- C7 witness: each clause at a concrete token, with the default marker
`"-"`. -/
theorem c7_witness :
    parseAllele ['-'] ['-'] = .ok .missing ∧
    parseAllele [' ', '4', '2'] ['-'] = .ok (.crc32v 42) ∧
    (∃ e, parseAllele ['x'] ['-'] = .error e) ∧
    parseAllele strMaxU32 ['-'] = .ok .missing :=
  ⟨c7_parse_allele.2.2.1 ['-'] (by decide),
   c7_parse_allele.2.2.2.1 [' ', '4', '2'] ['-'] 42 (by decide) (by decide)
     (by decide) (by decide) (by decide),
   c7_parse_allele.2.2.2.2.1 ['x'] ['-'] (by decide) (by decide) (by decide)
     (by decide),
   c7_parse_allele.2.2.2.2.2 ['-'] (by decide)⟩

/-- C8 (amended).  Equality of `AlignmentConfig` values compares all five
fields — the four integers and the optional description — because the
Rust `PartialEq` is derived for the whole struct; consequently the cache
compatibility check also depends on the description: a saved document
whose config differs from the engine's only in the description is
rejected at load. -/
theorem c8_config_equality :
    (∀ c1 c2 : AlignmentConfig, c1 = c2 ↔
      (c1.matchScore = c2.matchScore ∧
       c1.mismatchPenalty = c2.mismatchPenalty ∧
       c1.gapOpen = c2.gapOpen ∧ c1.gapExtend = c2.gapExtend ∧
       c1.description = c2.description)) ∧
    isOkE (loadCacheDoc engEmpty (saveCacheDoc engDescribed 0 .snpsOnly)
      .snpsOnly) = false := by
  constructor
  · intro c1 c2
    rcases c1 with ⟨a1, b1, g1, e1, d1⟩
    rcases c2 with ⟨a2, b2, g2, e2, d2⟩
    simp [AlignmentConfig.mk.injEq]
  · decide

/-- C8 counterexample.  Two configs with identical four integers but
different descriptions are unequal, refuting "equal iff the four numbers
are equal". -/
theorem c8_counterexample :
    cfgPlain.matchScore = cfgDescribed.matchScore ∧
    cfgPlain.mismatchPenalty = cfgDescribed.mismatchPenalty ∧
    cfgPlain.gapOpen = cfgDescribed.gapOpen ∧
    cfgPlain.gapExtend = cfgDescribed.gapExtend ∧
    cfgPlain ≠ cfgDescribed := by
  refine ⟨rfl, rfl, rfl, rfl, by decide⟩

/-- C4 (amended).  For an engine whose cached keys are pairwise distinct,
whose locus names contain no `':'` and whose fingerprints are `u32`
values, saving and re-loading into the same engine succeeds and
reproduces exactly the same canonical-key map; the saved metadata records
`format_version = 2` and sets `last_modified` to the save-time clock value
(so it strictly advances whenever the clock advanced).  Without the
`':'`-freeness restriction the round-trip fails: the flat string key
`locus:crc1:crc2` of a locus containing `':'` splits into more than three
parts and is silently dropped on load (see the counterexample). -/
theorem c4_cache_roundtrip (eng : Engine) (now : Nat) (mode : DistanceMode)
    (hnd : (eng.cache.map Prod.fst).Nodup)
    (hkeys : ∀ k ∈ eng.cache.map Prod.fst,
      ':' ∉ k.locus ∧ k.crc1 < 4294967296 ∧ k.crc2 < 4294967296) :
    (∃ eng2, loadCacheDoc eng (saveCacheDoc eng now mode) mode = .ok eng2 ∧
      ∀ k, lookupA eng2.cache k = lookupA eng.cache k) ∧
    (saveCacheDoc eng now mode).metadata.formatVersion = 2 ∧
    (saveCacheDoc eng now mode).metadata.lastModified = now := by
  have hload : loadCacheDoc eng (saveCacheDoc eng now mode) mode =
      .ok { eng with
        cache := (saveCacheDoc eng now mode).data.foldl loadCacheStep []
        hasNewEntries := false } := by
    rw [loadCacheDoc]
    rw [if_neg (by simp [saveCacheDoc]), if_neg (by simp [saveCacheDoc])]
  refine ⟨⟨_, hload, ?_⟩, rfl, rfl⟩
  intro k
  show lookupA ((saveCacheDoc eng now mode).data.foldl loadCacheStep []) k =
    lookupA eng.cache k
  have hdata : (saveCacheDoc eng now mode).data = eng.cache.map (fun p =>
      (renderKey p.1,
       ⟨p.2.snps, p.2.indelEvents, p.2.indelBases, now, none, none⟩)) := rfl
  rw [hdata, List.foldl_map]
  rw [List.foldl_ext _ (fun acc (p : DistanceCacheKey × CacheEntry) =>
    insertA acc p.1 p.2) [] (fun acc p hp => by
      rw [loadCacheStep]
      have hk := hkeys p.1 (List.mem_map_of_mem _ hp)
      rw [parseKeyParts_renderKey p.1 hk.1 hk.2.1 hk.2.2])]
  rw [lookupA_foldl_ins _ _ hnd k]
  rcases lookupA eng.cache k with _ | v <;> rfl

/-- C4 witness: the round-trip at a one-entry engine. -/
theorem c4_witness :
    (∃ eng2, loadCacheDoc engSmall (saveCacheDoc engSmall 7 .snpsOnly)
      .snpsOnly = .ok eng2 ∧
      ∀ k, lookupA eng2.cache k = lookupA engSmall.cache k) ∧
    (saveCacheDoc engSmall 7 .snpsOnly).metadata.formatVersion = 2 ∧
    (saveCacheDoc engSmall 7 .snpsOnly).metadata.lastModified = 7 :=
  c4_cache_roundtrip engSmall 7 .snpsOnly (by decide) (by decide)

/-- C4 counterexample.  An engine with one cached entry whose locus name
is `"a:b"`: save followed by load succeeds but silently drops the entry,
so the loaded map is not the original one. -/
theorem c4_counterexample :
    lookupA engColonLocus.cache ⟨['a', ':', 'b'], 1, 2⟩ = some ⟨1, 0, 0⟩ ∧
    (match loadCacheDoc engColonLocus
        (saveCacheDoc engColonLocus 7 .snpsOnly) .snpsOnly with
      | .ok e2 => lookupA e2.cache ⟨['a', ':', 'b'], 1, 2⟩
      | .error _ => some ⟨9, 9, 9⟩) = none := by
  constructor <;> decide

/-- C9 (amended).  Applying the quality filters twice with the same
thresholds and include/exclude filters produces the same matrix as
applying them once, provided the locus completeness threshold is not
positive.  With both thresholds positive idempotence fails, because the
first pass evaluates sample completeness over the pre-locus-filter locus
universe while the second pass evaluates it over the reduced one (see the
counterexample). -/
theorem c9_filter_idempotent (m : AllelicMatrix) (st lt : ℚ)
    (i e : Option (Str → Bool)) (is es : Option (List Str))
    (m1 : AllelicMatrix) (hlt : ¬ lt > 0)
    (h : applyQualityFilters m st lt i e is es = .ok m1) :
    applyQualityFilters m1 st lt i e is es = .ok m1 := by
  simp only [applyQualityFilters, if_neg hlt] at h ⊢
  by_cases hc1 : (filteredSamples m.samples st
      (filterLociNames m.lociNames i e is es)).length = 0
  · rw [if_pos hc1] at h
    exact Except.noConfusion h
  rw [if_neg hc1] at h
  by_cases hc2 : (filterLociNames m.lociNames i e is es).length = 0
  · rw [if_pos hc2] at h
    exact Except.noConfusion h
  rw [if_neg hc2] at h
  injection h with h
  subst h
  have hLidem : filterLociNames (filterLociNames m.lociNames i e is es)
      i e is es = filterLociNames m.lociNames i e is es := by
    rw [filterLociNames_eq_filter, filterLociNames_eq_filter]
    exact filter_idem _ _
  have hSidem : filteredSamples
      (filteredSamples m.samples st (filterLociNames m.lociNames i e is es))
      st (filterLociNames m.lociNames i e is es) =
      filteredSamples m.samples st (filterLociNames m.lociNames i e is es) :=
    filteredSamples_idem m.samples st (filterLociNames m.lociNames i e is es)
  show (if (filteredSamples _ st (filterLociNames _ i e is es)).length = 0
      then _ else _) = _
  rw [show (⟨filteredSamples m.samples st
      (filterLociNames m.lociNames i e is es),
      filterLociNames m.lociNames i e is es⟩ :
      AllelicMatrix).lociNames = filterLociNames m.lociNames i e is es
    from rfl]
  rw [show (⟨filteredSamples m.samples st
      (filterLociNames m.lociNames i e is es),
      filterLociNames m.lociNames i e is es⟩ :
      AllelicMatrix).samples = filteredSamples m.samples st
      (filterLociNames m.lociNames i e is es) from rfl]
  rw [hLidem, hSidem, if_neg hc1, if_neg hc2]

/-- C9 witness: with locus threshold `0`, a matrix with one fully-missing
sample is reduced in one pass, and the theorem re-applies the filters to
the reduced matrix without further change. -/
theorem c9_witness :
    applyQualityFilters mC9 (mkRat 1 2) 0 none none none none = .ok mC9 :=
  c9_filter_idempotent mC9w (mkRat 1 2) 0 none none none none mC9
    (by decide) (by decide)

/-- C9 counterexample.  With both thresholds `1/2`, one application of the
quality filters to `mC9` keeps all four samples and drops locus `X`; a
second application then also drops sample `s`, whose completeness over the
reduced universe `{Y}` is `0`.  The filters are not idempotent. -/
theorem c9_counterexample :
    applyQualityFilters mC9 (mkRat 1 2) (mkRat 1 2) none none none none =
      .ok mC9once ∧
    applyQualityFilters mC9once (mkRat 1 2) (mkRat 1 2) none none none
      none = .ok mC9twice ∧
    mC9once ≠ mC9twice := by
  refine ⟨by decide, by decide, by decide⟩

/-- C10 (confirmed).  Loading a v2 document errors exactly on a config or
hasher mismatch — never because of key shape; a key that does not split on
`':'` into exactly three parts is silently dropped; a fingerprint part
that fails to parse as a decimal `u32` is silently replaced by `0`; and
two distinct malformed string keys of a matching document collapse onto
fingerprint `(0, 0)` and overwrite one another, leaving a single entry. -/
theorem c10_load_key_parsing :
    (∀ (eng : Engine) (doc : ModernCacheM) (mode : DistanceMode),
      (∃ msg, loadCacheDoc eng doc mode = .error msg) ↔
        (doc.metadata.alignmentConfig ≠ eng.config ∨
         doc.metadata.hasherType ≠ eng.hasherType)) ∧
    (∀ s : Str, (splitOnColon s).length ≠ 3 → parseKeyParts s = none) ∧
    (∀ (acc : List (DistanceCacheKey × CacheEntry)) (p : Str × CacheValueM),
      parseKeyParts p.1 = none → loadCacheStep acc p = acc) ∧
    (∀ p0 p1 p2 : Str, ':' ∉ p0 → ':' ∉ p1 → ':' ∉ p2 →
      parseKeyParts (p0 ++ ':' :: (p1 ++ ':' :: p2)) =
        some ⟨p0, (parseU32 p1).getD 0, (parseU32 p2).getD 0⟩) ∧
    ((match loadCacheDoc engEmpty docCollapse .snpsOnly with
      | .ok e2 => some (e2.cache.length, lookupA e2.cache ⟨['L'], 0, 0⟩)
      | .error _ => none) = some (1, some ⟨2, 2, 2⟩)) := by
  refine ⟨?_, ?_, ?_, ?_, by decide⟩
  · intro eng doc mode
    rw [loadCacheDoc]
    by_cases h1 : doc.metadata.alignmentConfig ≠ eng.config
    · rw [if_pos h1]
      exact ⟨fun _ => Or.inl h1, fun _ => ⟨configMismatchMsg, rfl⟩⟩
    rw [if_neg h1]
    by_cases h2 : doc.metadata.hasherType ≠ eng.hasherType
    · rw [if_pos h2]
      exact ⟨fun _ => Or.inr h2, fun _ => ⟨hasherMismatchMsg, rfl⟩⟩
    rw [if_neg h2]
    constructor
    · rintro ⟨msg, hmsg⟩
      exact Except.noConfusion hmsg
    · rintro (hc | hc)
      · exact absurd hc h1
      · exact absurd hc h2
  · intro s hlen
    rw [parseKeyParts.eq_def]
    rcases hs : splitOnColon s with _ | ⟨a, _ | ⟨b, _ | ⟨c, _ | d⟩⟩⟩
    · rfl
    · rfl
    · rfl
    · rw [hs] at hlen
      exact absurd rfl hlen
    · rfl
  · intro acc p hp
    rw [loadCacheStep, hp]
  · intro p0 p1 p2 h0 h1 h2
    rw [parseKeyParts.eq_def, splitOnColon_append _ _ h0,
      splitOnColon_append _ _ h1, splitOnColon_of_no_colon _ h2]

/-- C10 witness: a malformed key (`"Lab"`, no `':'`) is dropped; the key
`"L:aa:bb"` parses with both fingerprints replaced by `0`. -/
theorem c10_witness :
    parseKeyParts ['L', 'a', 'b'] = none ∧
    loadCacheStep [] (['L', 'a', 'b'], ⟨1, 1, 1, 0, none, none⟩) = [] ∧
    parseKeyParts (['L'] ++ ':' :: (['a', 'a'] ++ ':' :: ['b', 'b'])) =
      some ⟨['L'], (parseU32 ['a', 'a']).getD 0,
        (parseU32 ['b', 'b']).getD 0⟩ :=
  ⟨c10_load_key_parsing.2.1 ['L', 'a', 'b'] (by decide),
   c10_load_key_parsing.2.2.1 [] (['L', 'a', 'b'], ⟨1, 1, 1, 0, none, none⟩)
     (c10_load_key_parsing.2.1 ['L', 'a', 'b'] (by decide)),
   c10_load_key_parsing.2.2.2.1 ['L'] ['a', 'a'] ['b', 'b'] (by decide)
     (by decide) (by decide)⟩

/-- C6.  Full-mode loading is collision-fatal: whenever two records of a
locus file carry distinct sequences with equal CRC32, the load returns an
error (first conjunct), and at the concrete colliding pair the error
message carries both record identifiers (second conjunct).  Selective
loading retains exactly the fingerprints of the required set that occur
in the file (third conjunct).  However — against the claim — the
selective loader performs no collision check: at the same colliding pair
it succeeds and silently keeps only the later record (fourth conjunct),
which is the code-bug divergence. -/
theorem c6_collision_policy :
    (∀ records : List FastaRecord,
      (∃ r1 ∈ records, ∃ r2 ∈ records,
        crc32 r1.sequence = crc32 r2.sequence ∧ r1.sequence ≠ r2.sequence) →
      ∃ msg, loadFastaIntoLocus records = .error msg) ∧
    (loadFastaIntoLocus [recColA, recColB] =
      .error (collisionMsg crcCol ['r', '1'] ['r', '2'])) ∧
    (∀ (required : List Nat) (records : List FastaRecord) (c : Nat),
      (lookupA (loadSelectiveLocus required records) c).isSome = true ↔
        (c ∈ required ∧ ∃ r ∈ records, crc32 r.sequence = c)) ∧
    (loadSelectiveLocus [crcCol] [recColA, recColB] =
      [(crcCol, ⟨seqColB, ['r', '2']⟩)]) := by
  refine ⟨?_, ?_, ?_, ?_⟩
  · rintro records ⟨r1, h1, r2, h2, hcrc, hne⟩
    rcases hres : loadFastaIntoLocus records with msg | mfin
    · exact ⟨msg, rfl⟩
    · exfalso
      have s1 := loadFasta_mem_stored records [] mfin hres r1 h1
      have s2 := loadFasta_mem_stored records [] mfin hres r2 h2
      rw [hcrc] at s1
      rw [s2] at s1
      injection s1 with s1
      exact hne s1.symm
  · set_option maxRecDepth 8000 in decide
  · intro required records c
    rw [loadSelectiveLocus]
    rw [loadSelective_keys_aux required records [] c]
    simp [lookupA]
  · set_option maxRecDepth 8000 in decide

set_option maxRecDepth 8000 in
/-- C6 witness: the fatal-collision clause and the retention clause at the
concrete colliding records. -/
theorem c6_witness :
    (∃ msg, loadFastaIntoLocus [recColA, recColB] = .error msg) ∧
    ((lookupA (loadSelectiveLocus [crcCol] [recColA, recColB])
        crcCol).isSome = true ↔
      (crcCol ∈ [crcCol] ∧
        ∃ r ∈ [recColA, recColB], crc32 r.sequence = crcCol)) :=
  ⟨c6_collision_policy.1 [recColA, recColB]
    ⟨recColA, by decide, recColB, by decide, by decide, by decide⟩,
   c6_collision_policy.2.2.1 [crcCol] [recColA, recColB] crcCol⟩

/-- C5 (confirmed).  First conjunct: every retained enriched cache entry —
one whose key parses as `locus:fp1:fp2`, survives the locus filter, the
identical-allele skip, the dedup check, the sample resolution, the Hamming
screen and the non-zero-length requirement — is scored as
`avg_length = (len1+len2)/2` and
`total_density = (snps+indel_events)/avg_length × 100`, and an event is
appended if and only if `total_density > T`.  Second conjunct: the
emitted events have pairwise distinct canonical
`(locus, min fp, max fp)` keys — each physical allele pair contributes at
most one event.  Third and fourth conjuncts: scenario S5 — a single entry
`L:11:22` with `snps = 20`, `indel_events = 0` and both lengths `100` has
`total_density = 20` and is emitted at `T = 3` but not at `T = 30`. -/
theorem c5_scan_scoring :
    (∀ (env : ScanEnv) (st : ScanState) (locus c1s c2s : Str)
      (v : CacheValueM) (s1 s2 : Str) (l1 l2 : Nat),
      ':' ∉ locus → ':' ∉ c1s → ':' ∉ c2s →
      locus ∈ env.efsaLoci → c1s ≠ c2s →
      (locus, canonPair ((parseU32 c1s).getD 0) ((parseU32 c2s).getD 0)) ∉
        st.processedPairs →
      lookupA env.mapping (locus, (parseU32 c1s).getD 0) = some s1 →
      lookupA env.mapping (locus, (parseU32 c2s).getD 0) = some s2 →
      (if strLe s1 s2 = true then (s1, s2) else (s2, s1)) ∈ env.validPairs →
      v.seq1Length = some l1 → v.seq2Length = some l2 → l1 ≠ 0 → l2 ≠ 0 →
      scanStep env st (locus ++ ':' :: (c1s ++ ':' :: c2s), v) =
        ⟨(locus, canonPair ((parseU32 c1s).getD 0) ((parseU32 c2s).getD 0))
          :: st.processedPairs,
         if ((v.snps + v.indelEvents : Nat) : ℚ) /
              (((l1 + l2 : Nat) : ℚ) / 2) * 100 > env.threshold
         then st.events ++ [⟨s1, s2, locus, c1s, c2s, v.snps, v.indelEvents,
               v.snps + v.indelEvents, ((l1 + l2 : Nat) : ℚ) / 2,
               ((v.snps : Nat) : ℚ) / (((l1 + l2 : Nat) : ℚ) / 2) * 100,
               ((v.indelEvents : Nat) : ℚ) /
                 (((l1 + l2 : Nat) : ℚ) / 2) * 100,
               ((v.snps + v.indelEvents : Nat) : ℚ) /
                 (((l1 + l2 : Nat) : ℚ) / 2) * 100⟩]
         else st.events⟩) ∧
    (∀ (env : ScanEnv) (entries : List (Str × CacheValueM)),
      ((scanCache env entries).events.map evCanonKey).Nodup) ∧
    ((scanCache (envS5 3) [entryS5]).events.map
      (fun ev => (ev.locus, ev.allele1, ev.allele2, ev.avgLength,
        ev.totalDensity)) =
      [(['L'], ['1', '1'], ['2', '2'], 100, 20)]) ∧
    ((scanCache (envS5 30) [entryS5]).events = []) := by
  refine ⟨?_, fun env entries => (scanCache_inv env entries).1,
    by decide, by decide⟩
  intro env st locus c1s c2s v s1 s2 l1 l2 hl hc1 hc2 hefsa hne hcp hm1 hm2
    hvp hs1 hs2 hl1 hl2
  rw [scanStep]
  rw [splitOnColon_append _ _ hl, splitOnColon_append _ _ hc1,
    splitOnColon_of_no_colon _ hc2]
  dsimp only
  rw [if_neg (by simpa using hefsa), if_neg hne, if_neg hcp]
  rw [scanEmit, hm1, hm2]
  dsimp only
  rw [if_neg (by simpa using hvp), hs1, hs2]
  dsimp only
  rw [if_neg (by simp [hl1, hl2])]
  simp only [qdiv_eq_div, qmul_eq_mul]
  by_cases hd : ((v.snps + v.indelEvents : Nat) : ℚ) /
      (((l1 + l2 : Nat) : ℚ) / 2) * 100 > env.threshold
  · rw [if_pos (by push_cast at hd ⊢; exact hd),
      if_pos (by push_cast at hd ⊢; exact hd)]
  · rw [if_neg (by push_cast at hd ⊢; exact hd),
      if_neg (by push_cast at hd ⊢; exact hd)]

/-- C5 witness: the retained-entry characterization applied to the
scenario-S5 entry from the empty scan state at threshold `3`. -/
theorem c5_witness :
    scanStep (envS5 3) ⟨[], []⟩
      (['L'] ++ ':' :: (['1', '1'] ++ ':' :: ['2', '2']), entryS5.2) =
      ⟨(['L'], canonPair ((parseU32 ['1', '1']).getD 0)
          ((parseU32 ['2', '2']).getD 0)) :: [],
       if ((entryS5.2.snps + entryS5.2.indelEvents : Nat) : ℚ) /
            (((100 + 100 : Nat) : ℚ) / 2) * 100 > (envS5 3).threshold
       then [] ++ [⟨sampleS1, sampleS2, ['L'], ['1', '1'], ['2', '2'],
             entryS5.2.snps, entryS5.2.indelEvents,
             entryS5.2.snps + entryS5.2.indelEvents,
             ((100 + 100 : Nat) : ℚ) / 2,
             ((entryS5.2.snps : Nat) : ℚ) /
               (((100 + 100 : Nat) : ℚ) / 2) * 100,
             ((entryS5.2.indelEvents : Nat) : ℚ) /
               (((100 + 100 : Nat) : ℚ) / 2) * 100,
             ((entryS5.2.snps + entryS5.2.indelEvents : Nat) : ℚ) /
               (((100 + 100 : Nat) : ℚ) / 2) * 100⟩]
       else []⟩ :=
  c5_scan_scoring.1 (envS5 3) ⟨[], []⟩ ['L'] ['1', '1'] ['2', '2'] entryS5.2
    sampleS1 sampleS2 100 100 (by decide) (by decide) (by decide)
    (by decide) (by decide) (by decide) (by decide) (by decide) (by decide)
    (by decide) (by decide) (by decide) (by decide)

end CgDist
